import Mathlib

/-!
Shallow embedding of squashfs-tools `reader.c` (the reader/producer stage of
mksquashfs): the block reader `reader_read_file`, the process reader
`reader_read_process`, the fragment classifier `is_fragment`, the dispatcher
`put_file_buffer`, and the tree/priority walker `reader_scan` / `reader`.

External capabilities (the buffer pool, the downstream queues, `read_bytes`,
`open`, `fstat`, process spawning and `waitpid`) are modelled by explicit
data: a file or generator stream is a list of read results consumed in order,
a stat is a record, and "putting a buffer on a queue" is recorded as an
emission in an output list.  The global sequence counter `seq` is threaded
through every function as explicit state.
-/

namespace SquashfsReader

/-- File type extracted from `st_mode & S_IFMT`: regular file, directory, or
anything else (symlink, device, fifo, socket...). -/
inductive FileMode where
  | reg
  | dir
  | other
deriving DecidableEq, Repr

/-- The fields of `struct stat` the reader uses: `st_size` and `st_mode`. -/
structure Stat where
  st_size : Nat
  st_mode : FileMode
deriving DecidableEq, Repr

/-- `struct inode_info` fields used by reader.c: the cached stat buffer, the
one-shot `read` flag, the `root_entry` marker, whether the inode is a pseudo
process file, and the per-file compression-override flags. -/
structure InodeInfo where
  buf : Stat
  read : Bool
  root_entry : Bool
  pseudoProcess : Bool
  noD : Bool
  noF : Bool
  no_fragments : Bool
  always_use_fragments : Bool
deriving DecidableEq, Repr

/-- Process-wide configuration globals read by reader.c: `block_log`,
`block_size` (in mksquashfs always `2 ^ block_log`) and the default
fragment-compression flag `noF`. -/
structure Config where
  block_log : Nat
  block_size : Nat
  noF : Bool
deriving DecidableEq, Repr

/-- `struct file_buffer` fields set or read by reader.c.  `file_size = -1`
is the "unknown" marker used by the process reader; `error` is the C int
field (0 = FALSE, 1 = TRUE, 2 = content-changed retry). -/
structure FileBuffer where
  sequence : Nat
  size : Nat
  file_size : Int
  error : Nat
  fragment : Bool
  noD : Bool
deriving DecidableEq, Repr

/-- A buffer as it comes out of `cache_get_nohash`: the fields reader.c has
not yet assigned are given fixed defaults (`file_size = -1` standing for the
indeterminate contents of a recycled cache block). -/
def freshBuffer : FileBuffer :=
  { sequence := 0, size := 0, file_size := -1, error := 0, fragment := false,
    noD := false }

/-- The three downstream queues: `to_main` (seq_queue_put), `to_process_frag`
and `to_deflate` (queue_put). -/
inductive Queue where
  | to_main
  | to_process_frag
  | to_deflate
deriving DecidableEq, Repr

/-- One buffer handed downstream, together with the queue it was put on. -/
abbrev Emission := Queue × FileBuffer

/-- `is_fragment` from reader.c: a mismatching per-file `noF` flag forces
FALSE; otherwise the file is a fragment iff fragments are not disabled for
it, its size is nonzero, and it is smaller than a block or
(`always_use_fragments` and not an exact multiple of the block size, tested
with `file_size & (block_size - 1)`). -/
def is_fragment (cfg : Config) (inode : InodeInfo) : Bool :=
  let file_size := inode.buf.st_size
  if inode.noF ≠ cfg.noF then
    false
  else
    !inode.no_fragments && decide (file_size ≠ 0) &&
      (decide (file_size < cfg.block_size) ||
        (inode.always_use_fragments &&
          decide (file_size &&& (cfg.block_size - 1) ≠ 0)))

/-- `put_file_buffer` from reader.c: an erroring buffer has its fragment
flag cleared and goes to the main thread; an empty file goes to the main
thread; a fragment goes to the process-fragment threads; everything else
goes to the deflate threads. -/
def put_file_buffer (fb : FileBuffer) : Emission :=
  if fb.error ≠ 0 then
    (Queue.to_main, { fb with fragment := false })
  else if fb.file_size = 0 then
    (Queue.to_main, fb)
  else if fb.fragment then
    (Queue.to_process_frag, fb)
  else
    (Queue.to_deflate, fb)

/-- Result of one `read_bytes` call: a byte count (0 means end of stream) or
a read error (-1 in C). -/
inductive ReadResult where
  | bytes (n : Nat)
  | err
deriving DecidableEq, Repr

/-- Pop the next read result off a modelled stream; an exhausted stream
yields end-of-stream (0 bytes) forever. -/
def takeRead : List ReadResult → ReadResult × List ReadResult
  | [] => (ReadResult.bytes 0, [])
  | r :: t => (r, t)

/-- The externally observable behaviour of a pseudo file's generator:
whether `pseudo_exec_file` succeeded, the successive `read_bytes` results on
its output pipe, and the `waitpid` outcome (`some c` = exited normally with
status `c`, `none` = wait failed or abnormal exit). -/
structure PseudoSrc where
  spawnOk : Bool
  reads : List ReadResult
  wait : Option Nat
deriving DecidableEq, Repr

/-- Result of running the process reader: the updated inode, the new value
of the global `seq` counter, and the buffers handed downstream in order. -/
structure ProcResult where
  inode : InodeInfo
  seq : Nat
  emits : List Emission
deriving DecidableEq, Repr

/-- The `read_err` / `read_err2` tail of `reader_read_process`: if a
previous buffer is held, the freshly acquired buffer is released and the
counter decremented, and the previous buffer is forwarded with `error`
set; otherwise the current buffer itself is forwarded with `error` set.
`s` is the counter value after the current buffer was acquired. -/
def procReadErr (inode : InodeInfo) (fb : FileBuffer)
    (prev : Option FileBuffer) (s : Nat) : ProcResult :=
  match prev with
  | some pb => { inode := inode, seq := s - 1,
                 emits := [put_file_buffer { pb with error := 1 }] }
  | none => { inode := inode, seq := s,
              emits := [put_file_buffer { fb with error := 1 }] }

/-- The code after the read loop of `reader_read_process` breaks on
end-of-stream: record the total bytes in the inode, wait for the child, on
failure take the error path, otherwise keep exactly one buffer as the
terminal one (releasing the spare empty buffer and decrementing the
counter when a previous buffer exists), give it the now-known file size
and fragment classification, and forward it. -/
def procFinish (cfg : Config) (inode : InodeInfo) (bytes : Nat)
    (prev : Option FileBuffer) (fb : FileBuffer) (s : Nat)
    (wait : Option Nat) : ProcResult :=
  let inode := { inode with buf := { inode.buf with st_size := bytes } }
  if wait ≠ some 0 then
    procReadErr inode fb prev s
  else
    match prev with
    | none =>
      let pb := { fb with
        file_size := (bytes : Int),
        fragment := is_fragment cfg inode }
      { inode := inode, seq := s, emits := [put_file_buffer pb] }
    | some pb0 =>
      let pb := { pb0 with
        file_size := (bytes : Int),
        fragment := is_fragment cfg inode }
      { inode := inode, seq := s - 1, emits := [put_file_buffer pb] }

/-- The main read loop of `reader_read_process`: acquire a buffer, assign
it the next sequence number, read up to a block from the generator's pipe;
a read error takes the error path, a zero-byte read ends the loop, and a
data block causes the previously held buffer (if any) to be forwarded while
the new buffer becomes the held one. -/
def procLoop (cfg : Config) (inode : InodeInfo) (bytes : Nat)
    (prev : Option FileBuffer) (s : Nat) (wait : Option Nat) :
    List ReadResult → ProcResult
  | [] =>
    let fb := { freshBuffer with
      sequence := s, noD := inode.noD, size := 0,
      file_size := -1, error := 0, fragment := false }
    procFinish cfg inode bytes prev fb (s + 1) wait
  | ReadResult.err :: _ =>
    let fb := { freshBuffer with sequence := s, noD := inode.noD }
    procReadErr inode fb prev (s + 1)
  | ReadResult.bytes n :: rest =>
    let fb := { freshBuffer with
      sequence := s, noD := inode.noD, size := n,
      file_size := -1, error := 0, fragment := false }
    if n = 0 then
      procFinish cfg inode (bytes + n) prev fb (s + 1) wait
    else
      let r := procLoop cfg inode (bytes + n) (some fb) (s + 1) wait rest
      match prev with
      | some pb => { r with emits := put_file_buffer pb :: r.emits }
      | none => r

/-- `reader_read_process` from reader.c: on spawn failure a single buffer is
acquired, numbered and forwarded with `error` set; otherwise the read loop
runs starting with no held buffer and zero accumulated bytes. -/
def reader_read_process (cfg : Config) (inode : InodeInfo) (s : Nat)
    (src : PseudoSrc) : ProcResult :=
  if !src.spawnOk then
    let fb := { freshBuffer with sequence := s }
    { inode := inode, seq := s + 1,
      emits := [put_file_buffer { fb with error := 1 }] }
  else
    procLoop cfg inode 0 none s src.wait src.reads

/-- The externally observable behaviour of one attempt (one trip through the
`again:` label) of `reader_read_file`: whether `open` succeeded, the
successive `read_bytes` results on the file descriptor, and the `fstat`
outcome should the attempt reach the `restat:` label (`none` = fstat
failed). -/
structure FileAttempt where
  openOk : Bool
  reads : List ReadResult
  fstatRes : Option Stat
deriving DecidableEq, Repr

/-- How one attempt of `reader_read_file` ends: `finished` covers the normal
return and the `read_err` / `read_err2` hard-failure exits, `retry` is the
`goto again` taken at the `restat:` label when the fresh stat size differs.
Each carries the inode as left by the attempt, the new counter value and the
buffers the attempt handed downstream. -/
inductive AttemptOutcome where
  | finished (inode : InodeInfo) (seq : Nat) (emits : List Emission)
  | retry (inode : InodeInfo) (seq : Nat) (emits : List Emission)
deriving DecidableEq, Repr

/-- Inode left by an attempt. -/
def AttemptOutcome.inodev : AttemptOutcome → InodeInfo
  | .finished i _ _ => i
  | .retry i _ _ => i

/-- Counter left by an attempt. -/
def AttemptOutcome.seqv : AttemptOutcome → Nat
  | .finished _ s _ => s
  | .retry _ s _ => s

/-- Buffers an attempt handed downstream, in order. -/
def AttemptOutcome.emits : AttemptOutcome → List Emission
  | .finished _ _ e => e
  | .retry _ _ e => e

/-- True when the attempt did not take the `goto again` retry. -/
def AttemptOutcome.isFinished : AttemptOutcome → Bool
  | .finished _ _ _ => true
  | .retry _ _ _ => false

/-- Prepend already-forwarded buffers to an attempt outcome. -/
def AttemptOutcome.prependList (es : List Emission) : AttemptOutcome → AttemptOutcome
  | .finished i s e => .finished i s (es ++ e)
  | .retry i s e => .retry i s (es ++ e)

/-- The `read_err` / `read_err2` tail of `reader_read_file`: the current
buffer is forwarded with `error` set to TRUE and the read is over. -/
def fileReadErr (inode : InodeInfo) (fb : FileBuffer) (s : Nat) : AttemptOutcome :=
  AttemptOutcome.finished inode s [put_file_buffer { fb with error := 1 }]

/-- The `restat:` label of `reader_read_file`: fstat the open file; on fstat
failure fall into `read_err`; if the fresh size differs from the size this
attempt was using, copy the fresh stat into the inode, forward the current
buffer with `error = 2` (content-changed) and retry from the top; if the
size is unchanged this is a hard failure (`read_err`). -/
def doRestat (inode : InodeInfo) (read_size : Nat) (fstatRes : Option Stat)
    (fb : FileBuffer) (s : Nat) : AttemptOutcome :=
  match fstatRes with
  | none => fileReadErr inode fb s
  | some buf2 =>
    if read_size ≠ buf2.st_size then
      AttemptOutcome.retry { inode with buf := buf2 } s
        [put_file_buffer { fb with error := 2 }]
    else
      fileReadErr inode fb s

/-- The code of `reader_read_file` after the block loop, with the tail
buffer `fb` still in hand: the accumulated byte count must equal the size
being read (else restat); if that size is a nonzero exact multiple of the
block size, one extra 1-byte read must hit end-of-stream (data means the
file grew: restat; a read error is a hard failure); on success the tail
buffer gets its fragment classification and is forwarded. -/
def finishTail (cfg : Config) (inode : InodeInfo) (read_size : Nat)
    (fstatRes : Option Stat) (fb : FileBuffer) (s bytes : Nat)
    (reads : List ReadResult) : AttemptOutcome :=
  if read_size ≠ bytes then
    doRestat inode read_size fstatRes fb s
  else if read_size ≠ 0 ∧ read_size % cfg.block_size = 0 then
    match takeRead reads with
    | (ReadResult.err, _) => fileReadErr inode fb s
    | (ReadResult.bytes n, _) =>
      if n ≠ 0 then
        doRestat inode read_size fstatRes fb s
      else
        AttemptOutcome.finished inode s
          [put_file_buffer { fb with fragment := is_fragment cfg inode }]
  else
    AttemptOutcome.finished inode s
      [put_file_buffer { fb with fragment := is_fragment cfg inode }]

/-- The last pass of the do-while block loop (`blocks <= 1` on entry, so the
`blocks > 1` branch is not taken): acquire and number a buffer, read up to a
block, then fall through to the after-loop checks with the buffer in hand. -/
def tailStep (cfg : Config) (inode : InodeInfo) (read_size : Nat)
    (fstatRes : Option Stat) (s bytes : Nat) (reads : List ReadResult) :
    AttemptOutcome :=
  let fb := { freshBuffer with
    file_size := (read_size : Int), sequence := s, noD := inode.noD,
    error := 0 }
  match takeRead reads with
  | (ReadResult.err, _) => fileReadErr inode fb (s + 1)
  | (ReadResult.bytes n, rest) =>
    finishTail cfg inode read_size fstatRes { fb with size := n } (s + 1)
      (bytes + n) rest

/-- The do-while block loop of `reader_read_file`, indexed by the remaining
`blocks` counter.  With more than one block left, a buffer is acquired and
numbered, a full block is expected (a short read means the file shrank:
restat), the buffer is forwarded as a non-fragment, and the loop continues;
the loop's last pass (`blocks` 0 or 1, the C loop always runs at least
once) is `tailStep`. -/
def blockLoop (cfg : Config) (inode : InodeInfo) (read_size : Nat)
    (fstatRes : Option Stat) :
    Nat → Nat → Nat → List ReadResult → AttemptOutcome
  | 0, s, bytes, reads => tailStep cfg inode read_size fstatRes s bytes reads
  | 1, s, bytes, reads => tailStep cfg inode read_size fstatRes s bytes reads
  | b + 2, s, bytes, reads =>
    let fb := { freshBuffer with
      file_size := (read_size : Int), sequence := s, noD := inode.noD,
      error := 0 }
    match takeRead reads with
    | (ReadResult.err, _) => fileReadErr inode fb (s + 1)
    | (ReadResult.bytes n, rest) =>
      let fb := { fb with size := n }
      if n < cfg.block_size then
        doRestat inode read_size fstatRes fb (s + 1)
      else
        AttemptOutcome.prependList [put_file_buffer { fb with fragment := false }]
          (blockLoop cfg inode read_size fstatRes (b + 1) (s + 1) (bytes + n) rest)

/-- One whole attempt of `reader_read_file` starting at the `again:` label:
take the size to read from the inode's stat, compute the block count, open
the file (failure forwards a single hard-error buffer), and run the block
loop with zero accumulated bytes. -/
def runAttempt (cfg : Config) (inode : InodeInfo) (s : Nat)
    (att : FileAttempt) : AttemptOutcome :=
  let read_size := inode.buf.st_size
  let blocks := (read_size + cfg.block_size - 1) >>> cfg.block_log
  if !att.openOk then
    let fb := { freshBuffer with sequence := s }
    AttemptOutcome.finished inode (s + 1)
      [put_file_buffer { fb with error := 1 }]
  else
    blockLoop cfg inode read_size att.fstatRes blocks s 0 att.reads

/-- Result of `reader_read_file`: updated inode, new counter, emissions in
order, and whether the read completed (`ok = false` only when the modelled
list of attempts was exhausted while the code wanted to retry again). -/
structure FileResult where
  inode : InodeInfo
  seq : Nat
  emits : List Emission
  ok : Bool
deriving DecidableEq, Repr

/-- The `goto again` loop of `reader_read_file`, driven by the modelled list
of attempts: a finished attempt ends the read; a retrying attempt continues
with the refreshed inode and the next attempt's view of the file. -/
def attemptLoop (cfg : Config) : InodeInfo → Nat → List FileAttempt → FileResult
  | inode, s, [] => { inode := inode, seq := s, emits := [], ok := false }
  | inode, s, att :: rest =>
    match runAttempt cfg inode s att with
    | .finished i s2 e => { inode := i, seq := s2, emits := e, ok := true }
    | .retry i s2 e =>
      let r := attemptLoop cfg i s2 rest
      { inode := r.inode, seq := r.seq, emits := e ++ r.emits, ok := r.ok }

/-- `reader_read_file` from reader.c: a second call on an already-read inode
returns immediately; otherwise the `read` flag is set before any reading
begins and the attempt loop runs. -/
def reader_read_file (cfg : Config) (inode : InodeInfo) (s : Nat)
    (attempts : List FileAttempt) : FileResult :=
  if inode.read then
    { inode := inode, seq := s, emits := [], ok := true }
  else
    attemptLoop cfg { inode with read := true } s attempts

mutual
/-- A `struct dir_ent` as the walker sees it: its inode, plus the modelled
external data a read of this entry would consume (the generator behaviour
when the inode is a pseudo process file, the file-attempt views when it is a
regular file) and the child directory list when it is a directory. -/
inductive DirEnt where
  | mk (inode : InodeInfo) (src : PseudoSrc) (attempts : List FileAttempt)
      (children : DirList)

/-- The `dir_ent` list of a `struct dir_info`. -/
inductive DirList where
  | nil
  | cons (ent : DirEnt) (rest : DirList)
end

/-- The inode of a directory entry. -/
def DirEnt.inode : DirEnt → InodeInfo
  | .mk i _ _ _ => i

/-- Result of scanning: the (possibly updated) entries, the new counter,
the emissions in order, and whether every block read completed within its
modelled attempts. -/
structure ScanResult where
  dir : DirList
  seq : Nat
  emits : List Emission
  ok : Bool

/-- Result of scanning a single entry. -/
structure ScanEntResult where
  ent : DirEnt
  seq : Nat
  emits : List Emission
  ok : Bool

mutual
/-- One iteration of the `reader_scan` loop body: skip root-alias entries,
send pseudo process files to the process reader, then dispatch on the stat
mode - regular files to the block reader, directories recursively, and
everything else is ignored. -/
def scanEnt (cfg : Config) : DirEnt → Nat → ScanEntResult
  | DirEnt.mk inode src attempts children, s =>
    if inode.root_entry then
      { ent := DirEnt.mk inode src attempts children, seq := s, emits := [], ok := true }
    else if inode.pseudoProcess then
      let r := reader_read_process cfg inode s src
      { ent := DirEnt.mk r.inode src attempts children, seq := r.seq,
        emits := r.emits, ok := true }
    else
      match inode.buf.st_mode with
      | FileMode.reg =>
        let r := reader_read_file cfg inode s attempts
        { ent := DirEnt.mk r.inode src attempts children, seq := r.seq,
          emits := r.emits, ok := r.ok }
      | FileMode.dir =>
        let r := scanList cfg children s
        { ent := DirEnt.mk inode src attempts r.dir, seq := r.seq,
          emits := r.emits, ok := r.ok }
      | FileMode.other =>
        { ent := DirEnt.mk inode src attempts children, seq := s, emits := [], ok := true }

/-- `reader_scan` from reader.c over the entry list of a directory. -/
def scanList (cfg : Config) : DirList → Nat → ScanResult
  | DirList.nil, s => { dir := DirList.nil, seq := s, emits := [], ok := true }
  | DirList.cons e es, s =>
    let r1 := scanEnt cfg e s
    let r2 := scanList cfg es r1.seq
    { dir := DirList.cons r1.ent r2.dir, seq := r2.seq,
      emits := r1.emits ++ r2.emits, ok := r1.ok && r2.ok }
end

/-- `reader_scan` applied to a directory's list. -/
def reader_scan (cfg : Config) (dir : DirList) (s : Nat) : ScanResult :=
  scanList cfg dir s

/-- One `struct priority_entry`: the directory entry it points at, carrying
the inode and the modelled file data. -/
structure PriorityEntry where
  inode : InodeInfo
  attempts : List FileAttempt

/-- The sorted-mode loop of `reader`: walk the priority buckets from the
highest priority down, calling `reader_read_file` on each listed entry. -/
def priorityLoop (cfg : Config) : Nat → List PriorityEntry → Nat × List Emission × Bool
  | s, [] => (s, [], true)
  | s, p :: ps =>
    let r := reader_read_file cfg p.inode s p.attempts
    let rest := priorityLoop cfg r.seq ps
    (rest.1, r.emits ++ rest.2.1, r.ok && rest.2.2)

/-- The `reader` thread body: after the start signal, either scan the
directory tree (unsorted mode) or process the priority table from priority
65535 down to 0 (sorted mode); `plist` lists the nonempty buckets in the
order the C loop visits them.  The run starts with the global counter
`seq = 0`.  Returns the final counter, the buffers handed downstream in
order, and the completion flag. -/
def reader (cfg : Config) (sorted : Bool) (tree : DirList)
    (plist : List (List PriorityEntry)) : Nat × List Emission × Bool :=
  if !sorted then
    let r := reader_scan cfg tree 0
    (r.seq, r.emits, r.ok)
  else
    priorityLoop cfg 0 plist.flatten

/-- The `read_bytes` results an unchanging file of size `S` delivers to the
block loop when read in requests of `B` bytes: `S / B` full blocks followed
by the tail, with end-of-stream afterwards. -/
def honestReads (S B : Nat) : List ReadResult :=
  List.replicate (S / B) (ReadResult.bytes B) ++
    (if S % B ≠ 0 then [ReadResult.bytes (S % B)] else [])

/-! ### Basic facts about the dispatcher and the classifier -/

theorem put_file_buffer_sequence (fb : FileBuffer) :
    (put_file_buffer fb).2.sequence = fb.sequence := by
  unfold put_file_buffer
  split_ifs <;> rfl

theorem put_file_buffer_error (fb : FileBuffer) :
    (put_file_buffer fb).2.error = fb.error := by
  unfold put_file_buffer
  split_ifs <;> rfl

theorem put_file_buffer_file_size (fb : FileBuffer) :
    (put_file_buffer fb).2.file_size = fb.file_size := by
  unfold put_file_buffer
  split_ifs <;> rfl

theorem put_file_buffer_size (fb : FileBuffer) :
    (put_file_buffer fb).2.size = fb.size := by
  unfold put_file_buffer
  split_ifs <;> rfl

theorem is_fragment_of_size_zero (cfg : Config) (inode : InodeInfo)
    (h : inode.buf.st_size = 0) : is_fragment cfg inode = false := by
  simp [is_fragment, h]

/-- C2: `put_file_buffer` routes every buffer to exactly one of the three
downstream queues, testing the rules in priority order: a nonzero error
goes to the main-output queue with the fragment flag forced off; otherwise
a zero `file_size` goes to the main-output queue; otherwise a
fragment-flagged buffer goes to the fragment-compression queue; otherwise
to the block-compression queue.  The guards are exhaustive and mutually
exclusive, and the forwarded buffer is the input buffer itself (its fields
other than the fragment flag are untouched), so no buffer is duplicated or
dropped. -/
theorem C2_put_file_buffer_routing (fb : FileBuffer) :
    (fb.error ≠ 0 →
      put_file_buffer fb = (Queue.to_main, { fb with fragment := false })) ∧
    (fb.error = 0 → fb.file_size = 0 →
      put_file_buffer fb = (Queue.to_main, fb)) ∧
    (fb.error = 0 → fb.file_size ≠ 0 → fb.fragment = true →
      put_file_buffer fb = (Queue.to_process_frag, fb)) ∧
    (fb.error = 0 → fb.file_size ≠ 0 → fb.fragment = false →
      put_file_buffer fb = (Queue.to_deflate, fb)) ∧
    (put_file_buffer fb).2.sequence = fb.sequence ∧
    (put_file_buffer fb).2.size = fb.size ∧
    (put_file_buffer fb).2.file_size = fb.file_size ∧
    (put_file_buffer fb).2.error = fb.error := by
  unfold put_file_buffer
  split_ifs with h1 h2 h3 <;> simp_all

theorem C2_put_file_buffer_routing_witness :
    put_file_buffer { freshBuffer with error := 1 } =
      (Queue.to_main, { freshBuffer with error := 1, fragment := false }) :=
  (C2_put_file_buffer_routing { freshBuffer with error := 1 }).1 (by decide)

/-! ### Concrete inputs used by several witnesses and counterexamples -/

/-- A 1024-byte block configuration with default fragment compression. -/
def cfgK : Config := { block_log := 10, block_size := 1024, noF := false }

/-- A 500-byte regular file whose per-file `no_fragments` override is ON,
with all other flags matching the defaults. -/
def inodeNoFrag : InodeInfo :=
  { buf := { st_size := 500, st_mode := FileMode.reg }, read := false,
    root_entry := false, pseudoProcess := false, noD := false, noF := false,
    no_fragments := true, always_use_fragments := false }

/-- A 500-byte regular file with fragments enabled and matching flags. -/
def inodeSmall : InodeInfo :=
  { buf := { st_size := 500, st_mode := FileMode.reg }, read := false,
    root_entry := false, pseudoProcess := false, noD := false, noF := false,
    no_fragments := false, always_use_fragments := false }

/-- C4 counterexample: the claim lists matching `noF` tags, nonzero size and
size below the block size as sufficient for fragment eligibility "with no
further conditions", but `is_fragment` also requires the per-file
`no_fragments` override to be off: this 500-byte file satisfies every
condition the claim lists, yet `is_fragment` returns false because
`no_fragments` is set. -/
theorem C4_counterexample :
    inodeNoFrag.noF = cfgK.noF ∧ inodeNoFrag.buf.st_size ≠ 0 ∧
    inodeNoFrag.buf.st_size < cfgK.block_size ∧
    inodeNoFrag.always_use_fragments = false ∧
    is_fragment cfgK inodeNoFrag = false := by
  decide

/-- C4 (amended): a file's terminal buffer is fragment-eligible iff its
`noF` tag equals the process-wide default, its per-file `no_fragments`
override is off, its size is nonzero, and (the size is below the block size
or `always_use_fragments` is on and the size is not an exact multiple of
the block size).  Stated for the power-of-two block sizes mksquashfs uses,
so that the `&` test in the source is exactly "not an exact multiple". -/
theorem C4_is_fragment_characterisation (cfg : Config) (inode : InodeInfo)
    (hB : cfg.block_size = 2 ^ cfg.block_log) :
    is_fragment cfg inode = true ↔
      inode.noF = cfg.noF ∧ inode.no_fragments = false ∧
      inode.buf.st_size ≠ 0 ∧
      (inode.buf.st_size < cfg.block_size ∨
        (inode.always_use_fragments = true ∧
          inode.buf.st_size % cfg.block_size ≠ 0)) := by
  simp only [is_fragment]
  rw [hB]
  rw [Nat.and_pow_two_sub_one_eq_mod]
  split_ifs with h1
  · simp only [Bool.false_eq_true, false_iff]
    intro h
    exact h1 h.1
  · push_neg at h1
    simp [h1, and_assoc, Bool.not_eq_true']

theorem C4_is_fragment_characterisation_witness :
    is_fragment cfgK inodeSmall = true :=
  (C4_is_fragment_characterisation cfgK inodeSmall (by decide)).mpr (by decide)

/-- C10: a pseudo file whose generator spawns, produces zero bytes and
exits with status 0 yields exactly one buffer with payload size 0,
`file_size` 0, no error and no fragment flag, routed to the main/output
queue; the inode's recorded size is updated to 0 and the sequence counter
advances by exactly one. -/
theorem C10_empty_pseudo_file (cfg : Config) (inode : InodeInfo) (s : Nat) :
    reader_read_process cfg inode s
        { spawnOk := true, reads := [], wait := some 0 } =
      { inode := { inode with buf := { inode.buf with st_size := 0 } },
        seq := s + 1,
        emits := [(Queue.to_main,
          { sequence := s, size := 0, file_size := 0, error := 0,
            fragment := false, noD := inode.noD })] } := by
  have hz : is_fragment cfg { inode with buf := { inode.buf with st_size := 0 } } = false :=
    is_fragment_of_size_zero _ _ rfl
  simp [reader_read_process, procLoop, procFinish, put_file_buffer, hz, freshBuffer]

/-! ### Sequence-number bookkeeping

Every reader function, started with counter value `s`, hands downstream a
list of buffers whose sequence numbers are exactly `s, s+1, ...` in
forwarding order, and leaves the counter at `s +` (number forwarded) - the
release-and-decrement paths included. -/

theorem procLoop_seq (cfg : Config) (wait : Option Nat) :
    ∀ (reads : List ReadResult) (inode : InodeInfo) (bytes : Nat)
      (prev : Option FileBuffer) (s base : Nat),
      (prev = none → base = s) →
      (∀ pb, prev = some pb → pb.sequence = base ∧ s = base + 1) →
      ((procLoop cfg inode bytes prev s wait reads).emits.map
          (fun e => e.2.sequence) =
        List.range' base (procLoop cfg inode bytes prev s wait reads).emits.length) ∧
      (procLoop cfg inode bytes prev s wait reads).seq =
        base + (procLoop cfg inode bytes prev s wait reads).emits.length := by
  intro reads
  induction reads with
  | nil =>
    intro inode bytes prev s base h1 h2
    cases prev with
    | none =>
      have hb := h1 rfl
      subst hb
      by_cases hw : wait = some 0 <;>
        simp [procLoop, procFinish, procReadErr, hw, put_file_buffer_sequence]
    | some pb =>
      obtain ⟨hpb, hs⟩ := h2 pb rfl
      subst hs
      by_cases hw : wait = some 0 <;>
        simp [procLoop, procFinish, procReadErr, hw, put_file_buffer_sequence, hpb]
  | cons r rest ih =>
    intro inode bytes prev s base h1 h2
    cases r with
    | err =>
      cases prev with
      | none =>
        have hb := h1 rfl
        subst hb
        simp [procLoop, procReadErr, put_file_buffer_sequence]
      | some pb =>
        obtain ⟨hpb, hs⟩ := h2 pb rfl
        subst hs
        simp [procLoop, procReadErr, put_file_buffer_sequence, hpb]
    | bytes n =>
      by_cases hn : n = 0
      · subst hn
        cases prev with
        | none =>
          have hb := h1 rfl
          subst hb
          by_cases hw : wait = some 0 <;>
            simp [procLoop, procFinish, procReadErr, hw, put_file_buffer_sequence]
        | some pb =>
          obtain ⟨hpb, hs⟩ := h2 pb rfl
          subst hs
          by_cases hw : wait = some 0 <;>
            simp [procLoop, procFinish, procReadErr, hw, put_file_buffer_sequence, hpb]
      · have hrec := ih inode (bytes + n)
          (some { sequence := s, size := n, file_size := -1, error := 0,
                  fragment := false, noD := inode.noD })
          (s + 1) s (by intro h; cases h) (by intro pb hpb; cases hpb; exact ⟨rfl, rfl⟩)
        cases prev with
        | none =>
          have hb := h1 rfl
          subst hb
          simpa [procLoop, hn] using hrec
        | some pb =>
          obtain ⟨hpb, hs⟩ := h2 pb rfl
          subst hs
          obtain ⟨hmap, hseq⟩ := hrec
          have heq : procLoop cfg inode bytes (some pb) (base + 1) wait
              (ReadResult.bytes n :: rest) =
              { procLoop cfg inode (bytes + n)
                  (some { sequence := base + 1, size := n, file_size := -1,
                          error := 0, fragment := false, noD := inode.noD })
                  (base + 1 + 1) wait rest with
                emits := put_file_buffer pb ::
                  (procLoop cfg inode (bytes + n)
                    (some { sequence := base + 1, size := n, file_size := -1,
                            error := 0, fragment := false, noD := inode.noD })
                    (base + 1 + 1) wait rest).emits } := by
            simp [procLoop, hn, freshBuffer]
          constructor
          · rw [heq]
            simp only [List.map_cons, List.length_cons, put_file_buffer_sequence,
              hpb, hmap]
            rw [List.range'_succ]
          · rw [heq]
            simp only [List.length_cons]
            omega

theorem reader_read_process_seq (cfg : Config) (inode : InodeInfo) (s : Nat)
    (src : PseudoSrc) :
    ((reader_read_process cfg inode s src).emits.map (fun e => e.2.sequence) =
      List.range' s (reader_read_process cfg inode s src).emits.length) ∧
    (reader_read_process cfg inode s src).seq =
      s + (reader_read_process cfg inode s src).emits.length := by
  unfold reader_read_process
  cases hsp : src.spawnOk with
  | false => simp [put_file_buffer_sequence]
  | true =>
    simpa using procLoop_seq cfg src.wait src.reads inode 0 none s s
      (fun _ => rfl) (by intro pb h; cases h)

theorem AttemptOutcome.prependList_emits (es : List Emission) (o : AttemptOutcome) :
    (AttemptOutcome.prependList es o).emits = es ++ o.emits := by
  cases o <;> rfl

theorem AttemptOutcome.prependList_seqv (es : List Emission) (o : AttemptOutcome) :
    (AttemptOutcome.prependList es o).seqv = o.seqv := by
  cases o <;> rfl

theorem AttemptOutcome.prependList_inodev (es : List Emission) (o : AttemptOutcome) :
    (AttemptOutcome.prependList es o).inodev = o.inodev := by
  cases o <;> rfl

theorem AttemptOutcome.prependList_isFinished (es : List Emission) (o : AttemptOutcome) :
    (AttemptOutcome.prependList es o).isFinished = o.isFinished := by
  cases o <;> rfl

theorem fileReadErr_spec (inode : InodeInfo) (fb : FileBuffer) (s : Nat) :
    (fileReadErr inode fb s).emits.map (fun e => e.2.sequence) = [fb.sequence] ∧
    (fileReadErr inode fb s).seqv = s := by
  simp [fileReadErr, AttemptOutcome.emits, AttemptOutcome.seqv, put_file_buffer_sequence]

theorem doRestat_spec (inode : InodeInfo) (read_size : Nat)
    (fstatRes : Option Stat) (fb : FileBuffer) (s : Nat) :
    (doRestat inode read_size fstatRes fb s).emits.map (fun e => e.2.sequence) =
      [fb.sequence] ∧
    (doRestat inode read_size fstatRes fb s).seqv = s := by
  cases fstatRes with
  | none =>
    simp [doRestat, fileReadErr, AttemptOutcome.emits, AttemptOutcome.seqv,
      put_file_buffer_sequence]
  | some buf2 =>
    by_cases h : read_size ≠ buf2.st_size
    · simp [doRestat, h, AttemptOutcome.emits, AttemptOutcome.seqv,
        put_file_buffer_sequence]
    · simp [doRestat, h, fileReadErr, AttemptOutcome.emits, AttemptOutcome.seqv,
        put_file_buffer_sequence]

theorem finishTail_spec (cfg : Config) (inode : InodeInfo) (read_size : Nat)
    (fstatRes : Option Stat) (fb : FileBuffer) (s bytes : Nat)
    (reads : List ReadResult) :
    ((finishTail cfg inode read_size fstatRes fb s bytes reads).emits.map
        (fun e => e.2.sequence) = [fb.sequence]) ∧
    (finishTail cfg inode read_size fstatRes fb s bytes reads).seqv = s := by
  by_cases h1 : read_size ≠ bytes
  · simpa [finishTail, h1] using doRestat_spec inode read_size fstatRes fb s
  · by_cases h2 : read_size ≠ 0 ∧ read_size % cfg.block_size = 0
    · rcases hr : takeRead reads with ⟨r, rest⟩
      cases r with
      | err =>
        simp [finishTail, h1, h2, hr, fileReadErr, AttemptOutcome.emits,
          AttemptOutcome.seqv, put_file_buffer_sequence]
      | bytes n =>
        by_cases hn : n ≠ 0
        · simpa [finishTail, h1, h2, hr, hn] using
            doRestat_spec inode read_size fstatRes fb s
        · simp [finishTail, h1, h2, hr, hn, AttemptOutcome.emits,
            AttemptOutcome.seqv, put_file_buffer_sequence]
    · simp [finishTail, h1, h2, AttemptOutcome.emits, AttemptOutcome.seqv,
        put_file_buffer_sequence]

theorem tailStep_spec (cfg : Config) (inode : InodeInfo) (read_size : Nat)
    (fstatRes : Option Stat) (s bytes : Nat) (reads : List ReadResult) :
    ((tailStep cfg inode read_size fstatRes s bytes reads).emits.map
        (fun e => e.2.sequence) = [s]) ∧
    (tailStep cfg inode read_size fstatRes s bytes reads).seqv = s + 1 := by
  rcases hr : takeRead reads with ⟨r, rest⟩
  cases r with
  | err =>
    simp [tailStep, hr, fileReadErr, AttemptOutcome.emits, AttemptOutcome.seqv,
      put_file_buffer_sequence]
  | bytes n =>
    have h := finishTail_spec cfg inode read_size fstatRes
      { freshBuffer with
        file_size := (read_size : Int), sequence := s, noD := inode.noD,
        error := 0, size := n } (s + 1) (bytes + n) rest
    constructor
    · simp only [tailStep]
      rw [hr]
      simpa using h.1
    · simp only [tailStep]
      rw [hr]
      simpa using h.2

theorem blockLoop_seq (cfg : Config) (inode : InodeInfo) (read_size : Nat)
    (fstatRes : Option Stat) :
    ∀ (b s bytes : Nat) (reads : List ReadResult),
    ((blockLoop cfg inode read_size fstatRes b s bytes reads).emits.map
        (fun e => e.2.sequence) =
      List.range' s (blockLoop cfg inode read_size fstatRes b s bytes reads).emits.length) ∧
    (blockLoop cfg inode read_size fstatRes b s bytes reads).seqv =
      s + (blockLoop cfg inode read_size fstatRes b s bytes reads).emits.length := by
  have single : ∀ (o : AttemptOutcome) (s : Nat),
      o.emits.map (fun e => e.2.sequence) = [s] → o.seqv = s + 1 →
      (o.emits.map (fun e => e.2.sequence) = List.range' s o.emits.length) ∧
      o.seqv = s + o.emits.length := by
    intro o s h1 h2
    have hlen : o.emits.length = 1 := by simpa using congrArg List.length h1
    rw [hlen, List.range'_one]
    exact ⟨h1, h2⟩
  intro b
  induction b using Nat.strong_induction_on with
  | _ b ih =>
    match b with
    | 0 =>
      intro s bytes reads
      obtain ⟨h1, h2⟩ := tailStep_spec cfg inode read_size fstatRes s bytes reads
      simpa only [blockLoop] using single _ s h1 h2
    | 1 =>
      intro s bytes reads
      obtain ⟨h1, h2⟩ := tailStep_spec cfg inode read_size fstatRes s bytes reads
      simpa only [blockLoop] using single _ s h1 h2
    | b + 2 =>
      intro s bytes reads
      rcases hr : takeRead reads with ⟨r, rest⟩
      cases r with
      | err =>
        have heq : blockLoop cfg inode read_size fstatRes (b + 2) s bytes reads =
            fileReadErr inode
              { freshBuffer with
                file_size := (read_size : Int), sequence := s, noD := inode.noD,
                error := 0 } (s + 1) := by
          simp [blockLoop, hr]
        rw [heq]
        exact single _ s (by simpa using (fileReadErr_spec inode _ (s + 1)).1)
          (fileReadErr_spec inode _ (s + 1)).2
      | bytes n =>
        by_cases hn : n < cfg.block_size
        · have heq : blockLoop cfg inode read_size fstatRes (b + 2) s bytes reads =
              doRestat inode read_size fstatRes
                { freshBuffer with
                  file_size := (read_size : Int), sequence := s, noD := inode.noD,
                  error := 0, size := n } (s + 1) := by
            simp [blockLoop, hr, hn]
          rw [heq]
          exact single _ s (by simpa using (doRestat_spec inode read_size fstatRes _ (s + 1)).1)
            (doRestat_spec inode read_size fstatRes _ (s + 1)).2
        · have heq : blockLoop cfg inode read_size fstatRes (b + 2) s bytes reads =
              AttemptOutcome.prependList
                [put_file_buffer
                  { freshBuffer with
                    file_size := (read_size : Int), sequence := s, noD := inode.noD,
                    error := 0, size := n, fragment := false }]
                (blockLoop cfg inode read_size fstatRes (b + 1) (s + 1) (bytes + n) rest) := by
            simp [blockLoop, hr, hn]
          rw [heq]
          obtain ⟨hmap, hseq⟩ := ih (b + 1) (by omega) (s + 1) (bytes + n) rest
          rw [AttemptOutcome.prependList_emits, AttemptOutcome.prependList_seqv]
          constructor
          · rw [List.singleton_append]
            simp only [List.map_cons, List.length_cons, put_file_buffer_sequence,
              hmap]
            rw [List.range'_succ]
          · rw [List.singleton_append]
            simp only [List.length_cons]
            omega

theorem runAttempt_seq (cfg : Config) (inode : InodeInfo) (s : Nat)
    (att : FileAttempt) :
    ((runAttempt cfg inode s att).emits.map (fun e => e.2.sequence) =
      List.range' s (runAttempt cfg inode s att).emits.length) ∧
    (runAttempt cfg inode s att).seqv =
      s + (runAttempt cfg inode s att).emits.length := by
  unfold runAttempt
  cases ho : att.openOk with
  | false => simp [AttemptOutcome.emits, AttemptOutcome.seqv, put_file_buffer_sequence]
  | true => simpa using blockLoop_seq cfg inode inode.buf.st_size att.fstatRes _ s 0 att.reads

theorem attemptLoop_seq (cfg : Config) :
    ∀ (attempts : List FileAttempt) (inode : InodeInfo) (s : Nat),
    ((attemptLoop cfg inode s attempts).emits.map (fun e => e.2.sequence) =
      List.range' s (attemptLoop cfg inode s attempts).emits.length) ∧
    (attemptLoop cfg inode s attempts).seq =
      s + (attemptLoop cfg inode s attempts).emits.length := by
  intro attempts
  induction attempts with
  | nil => intro inode s; simp [attemptLoop]
  | cons att rest ih =>
    intro inode s
    obtain ⟨hmap, hseq⟩ := runAttempt_seq cfg inode s att
    rcases hA : runAttempt cfg inode s att with ⟨i, s2, e⟩ | ⟨i, s2, e⟩
    · rw [hA] at hmap hseq
      simp only [AttemptOutcome.emits, AttemptOutcome.seqv] at hmap hseq
      simp [attemptLoop, hA, hmap, hseq]
    · rw [hA] at hmap hseq
      simp only [AttemptOutcome.emits, AttemptOutcome.seqv] at hmap hseq
      subst hseq
      obtain ⟨hmap2, hseq2⟩ := ih i (s + e.length)
      simp only [attemptLoop, hA]
      constructor
      · simp only [List.map_append, List.length_append, hmap, hmap2]
        rw [List.range'_append_1]
        congr 1
        omega
      · simp only [List.length_append, hseq2]
        omega

theorem reader_read_file_seq (cfg : Config) (inode : InodeInfo) (s : Nat)
    (attempts : List FileAttempt) :
    ((reader_read_file cfg inode s attempts).emits.map (fun e => e.2.sequence) =
      List.range' s (reader_read_file cfg inode s attempts).emits.length) ∧
    (reader_read_file cfg inode s attempts).seq =
      s + (reader_read_file cfg inode s attempts).emits.length := by
  unfold reader_read_file
  split_ifs with h
  · simp
  · exact attemptLoop_seq cfg attempts _ s

mutual
theorem scanEnt_seq (cfg : Config) : ∀ (e : DirEnt) (s : Nat),
    ((scanEnt cfg e s).emits.map (fun x => x.2.sequence) =
      List.range' s (scanEnt cfg e s).emits.length) ∧
    (scanEnt cfg e s).seq = s + (scanEnt cfg e s).emits.length
  | DirEnt.mk inode src attempts children, s => by
    rw [scanEnt]
    split_ifs with h1 h2
    · simp
    · simpa using reader_read_process_seq cfg inode s src
    · cases hm : inode.buf.st_mode with
      | reg => simpa using reader_read_file_seq cfg inode s attempts
      | dir => simpa using scanList_seq cfg children s
      | other => simp

theorem scanList_seq (cfg : Config) : ∀ (d : DirList) (s : Nat),
    ((scanList cfg d s).emits.map (fun x => x.2.sequence) =
      List.range' s (scanList cfg d s).emits.length) ∧
    (scanList cfg d s).seq = s + (scanList cfg d s).emits.length
  | DirList.nil, s => by simp [scanList]
  | DirList.cons e es, s => by
    obtain ⟨hmap1, hseq1⟩ := scanEnt_seq cfg e s
    obtain ⟨hmap2, hseq2⟩ := scanList_seq cfg es (scanEnt cfg e s).seq
    rw [hseq1] at hmap2 hseq2
    rw [scanList]
    constructor
    · simp only [List.map_append, List.length_append, hseq1, hmap1, hmap2]
      rw [List.range'_append_1]
      congr 1
      omega
    · simp only [List.length_append, hseq1, hseq2]
      omega
end

theorem priorityLoop_seq (cfg : Config) :
    ∀ (ps : List PriorityEntry) (s : Nat),
    ((priorityLoop cfg s ps).2.1.map (fun e => e.2.sequence) =
      List.range' s (priorityLoop cfg s ps).2.1.length) ∧
    (priorityLoop cfg s ps).1 = s + (priorityLoop cfg s ps).2.1.length := by
  intro ps
  induction ps with
  | nil => intro s; simp [priorityLoop]
  | cons p rest ih =>
    intro s
    obtain ⟨hmap1, hseq1⟩ := reader_read_file_seq cfg p.inode s p.attempts
    obtain ⟨hmap2, hseq2⟩ := ih (reader_read_file cfg p.inode s p.attempts).seq
    rw [hseq1] at hmap2 hseq2
    simp only [priorityLoop]
    constructor
    · simp only [List.map_append, List.length_append, hseq1, hmap1, hmap2]
      rw [List.range'_append_1]
      congr 1
      omega
    · simp only [List.length_append, hseq1, hseq2]
      omega

/-- C1: across an entire run of the reader thread - tree mode or priority
mode, regular files, pseudo process files and error buffers included - the
sequence numbers of the buffers handed downstream via `put_file_buffer`
are, in forwarding order, exactly `0, 1, ..., n-1`: a contiguous, strictly
increasing sequence starting at 0 with exactly one number per forwarded
buffer, and the final counter equals the number of buffers forwarded (so
the release-and-decrement paths never leave a gap and no number is ever
issued below one already handed downstream). -/
theorem C1_sequence_numbers_contiguous (cfg : Config) (sorted : Bool)
    (tree : DirList) (plist : List (List PriorityEntry)) :
    ((reader cfg sorted tree plist).2.1.map (fun e => e.2.sequence) =
      List.range (reader cfg sorted tree plist).2.1.length) ∧
    (reader cfg sorted tree plist).1 = (reader cfg sorted tree plist).2.1.length := by
  unfold reader reader_scan
  cases sorted with
  | false =>
    obtain ⟨hmap, hseq⟩ := scanList_seq cfg tree 0
    simpa [List.range_eq_range'] using And.intro hmap hseq
  | true =>
    obtain ⟨hmap, hseq⟩ := priorityLoop_seq cfg plist.flatten 0
    simpa [List.range_eq_range'] using And.intro hmap hseq

/-! ### Counting the buffers of an undisturbed block read -/

theorem AttemptOutcome.prependList_nil (o : AttemptOutcome) :
    AttemptOutcome.prependList [] o = o := by
  cases o <;> simp [AttemptOutcome.prependList]

theorem AttemptOutcome.prependList_prependList (es fs : List Emission)
    (o : AttemptOutcome) :
    AttemptOutcome.prependList es (AttemptOutcome.prependList fs o) =
      AttemptOutcome.prependList (es ++ fs) o := by
  cases o <;> simp [AttemptOutcome.prependList]

/-- The emission one non-tail loop pass makes for a full block. -/
def fullEmit (cfg : Config) (inode : InodeInfo) (read_size : Nat) (s : Nat) :
    Emission :=
  put_file_buffer
    { sequence := s, size := cfg.block_size, file_size := (read_size : Int),
      error := 0, fragment := false, noD := inode.noD }

theorem blockLoop_replicate (cfg : Config) (inode : InodeInfo) (read_size : Nat)
    (fstatRes : Option Stat) :
    ∀ (k s bytes : Nat) (tail : List ReadResult),
    blockLoop cfg inode read_size fstatRes (k + 1) s bytes
        (List.replicate k (ReadResult.bytes cfg.block_size) ++ tail) =
      AttemptOutcome.prependList
        ((List.range k).map (fun j => fullEmit cfg inode read_size (s + j)))
        (blockLoop cfg inode read_size fstatRes 1 (s + k)
          (bytes + k * cfg.block_size) tail)
  | 0, s, bytes, tail => by
    simp [AttemptOutcome.prependList_nil]
  | k + 1, s, bytes, tail => by
    have heq : blockLoop cfg inode read_size fstatRes (k + 2) s bytes
        (ReadResult.bytes cfg.block_size ::
          (List.replicate k (ReadResult.bytes cfg.block_size) ++ tail)) =
        AttemptOutcome.prependList [fullEmit cfg inode read_size s]
          (blockLoop cfg inode read_size fstatRes (k + 1) (s + 1)
            (bytes + cfg.block_size)
            (List.replicate k (ReadResult.bytes cfg.block_size) ++ tail)) := by
      simp [blockLoop, takeRead, fullEmit, freshBuffer, lt_irrefl]
    have e1 : s + 1 + k = s + (k + 1) := by omega
    have e2 : bytes + cfg.block_size + k * cfg.block_size =
        bytes + (k + 1) * cfg.block_size := by ring
    rw [List.replicate_succ, List.cons_append, heq,
      blockLoop_replicate cfg inode read_size fstatRes k (s + 1)
        (bytes + cfg.block_size) tail,
      AttemptOutcome.prependList_prependList, e1, e2]
    congr 1
    rw [List.range_succ_eq_map, List.map_cons, List.map_map,
      List.singleton_append, Nat.add_zero]
    congr 1
    apply List.map_congr_left
    intro j hj
    simp only [Function.comp_apply]
    congr 1
    omega

theorem ceil_div_exact {B S : Nat} (hB : 0 < B) (h : S % B = 0) :
    (S + B - 1) / B = S / B := by
  obtain ⟨q, hq⟩ : B ∣ S := Nat.dvd_of_mod_eq_zero h
  subst hq
  have h1 : B * q + B - 1 = B * q + (B - 1) := by omega
  rw [h1, Nat.mul_add_div hB, Nat.div_eq_of_lt (show B - 1 < B by omega),
    Nat.mul_div_cancel_left _ hB]
  omega

theorem ceil_div_inexact {B S : Nat} (hB : 0 < B) (h : S % B ≠ 0) :
    (S + B - 1) / B = S / B + 1 := by
  have hd := Nat.div_add_mod S B
  have hr : S % B < B := Nat.mod_lt _ hB
  have h2 : B * (S / B + 1) = B * (S / B) + B := by ring
  have h1 : S + B - 1 = B * (S / B + 1) + (S % B - 1) := by omega
  rw [h1, Nat.mul_add_div hB, Nat.div_eq_of_lt (show S % B - 1 < B by omega)]

/-- An undisturbed read of a file of stated size `S` finishes its single
attempt, and emits exactly `max 1 ⌈S / B⌉` buffers. -/
theorem runAttempt_honest (cfg : Config) (inode : InodeInfo) (s : Nat)
    (hB : cfg.block_size = 2 ^ cfg.block_log) :
    (runAttempt cfg inode s
        { openOk := true,
          reads := honestReads inode.buf.st_size cfg.block_size,
          fstatRes := none }).isFinished = true ∧
    (runAttempt cfg inode s
        { openOk := true,
          reads := honestReads inode.buf.st_size cfg.block_size,
          fstatRes := none }).emits.length =
      max 1 ((inode.buf.st_size + cfg.block_size - 1) / cfg.block_size) := by
  have hBpos : 0 < cfg.block_size := hB ▸ Nat.two_pow_pos cfg.block_log
  have hblocks : ∀ m : Nat, m >>> cfg.block_log = m / cfg.block_size := by
    intro m
    rw [Nat.shiftRight_eq_div_pow, ← hB]
  unfold runAttempt
  simp only [Bool.not_true, Bool.false_eq_true, if_false, hblocks]
  by_cases hS0 : inode.buf.st_size = 0
  · have h0 : honestReads inode.buf.st_size cfg.block_size = [] := by
      simp [honestReads, hS0, Nat.zero_div]
    have hb0 : (inode.buf.st_size + cfg.block_size - 1) / cfg.block_size = 0 := by
      rw [hS0]
      exact Nat.div_eq_of_lt (by omega)
    rw [h0, hb0]
    have hcomp : blockLoop cfg inode inode.buf.st_size none 0 s 0 [] =
        AttemptOutcome.finished inode (s + 1)
          [put_file_buffer
            { sequence := s, size := 0, file_size := (inode.buf.st_size : Int),
              error := 0, fragment := is_fragment cfg inode, noD := inode.noD }] := by
      simp [blockLoop, tailStep, takeRead, finishTail, freshBuffer, hS0]
    rw [hcomp]
    simp [AttemptOutcome.isFinished, AttemptOutcome.emits]
  · by_cases hmod : inode.buf.st_size % cfg.block_size = 0
    · -- nonzero exact multiple of the block size
      have hq : 0 < inode.buf.st_size / cfg.block_size := by
        rcases Nat.lt_or_ge inode.buf.st_size cfg.block_size with hlt | hge
        · exact absurd (Nat.mod_eq_of_lt hlt ▸ hmod) hS0
        · exact Nat.div_pos hge hBpos
      obtain ⟨k, hk⟩ : ∃ k, inode.buf.st_size / cfg.block_size = k + 1 :=
        ⟨inode.buf.st_size / cfg.block_size - 1, by omega⟩
      have hbytes : k * cfg.block_size + cfg.block_size = inode.buf.st_size := by
        have h3 := Nat.div_add_mod inode.buf.st_size cfg.block_size
        rw [hk] at h3
        have h2 : cfg.block_size * (k + 1) = k * cfg.block_size + cfg.block_size := by
          ring
        omega
      have hre : honestReads inode.buf.st_size cfg.block_size =
          List.replicate k (ReadResult.bytes cfg.block_size) ++
            [ReadResult.bytes cfg.block_size] := by
        rw [honestReads, hk, if_neg (by simp [hmod])]
        rw [List.replicate_succ']
        simp
      have hceil := ceil_div_exact hBpos hmod
      rw [hre, hceil, hk,
        blockLoop_replicate cfg inode inode.buf.st_size none k s 0]
      have htail : blockLoop cfg inode inode.buf.st_size none 1 (s + k)
          (0 + k * cfg.block_size) [ReadResult.bytes cfg.block_size] =
          AttemptOutcome.finished inode (s + k + 1)
            [put_file_buffer
              { sequence := s + k, size := cfg.block_size,
                file_size := (inode.buf.st_size : Int), error := 0,
                fragment := is_fragment cfg inode, noD := inode.noD }] := by
        simp only [blockLoop, tailStep, takeRead, Nat.zero_add]
        simp [finishTail, takeRead, hbytes, hS0, hmod, freshBuffer]
      rw [htail]
      constructor
      · rw [AttemptOutcome.prependList_isFinished]
        rfl
      · rw [AttemptOutcome.prependList_emits]
        simp [AttemptOutcome.emits]
    · -- size not a multiple of the block size: a partial tail block
      have hbytes : (inode.buf.st_size / cfg.block_size) * cfg.block_size +
          inode.buf.st_size % cfg.block_size = inode.buf.st_size := by
        have h3 := Nat.div_add_mod inode.buf.st_size cfg.block_size
        have h2 : cfg.block_size * (inode.buf.st_size / cfg.block_size) =
            (inode.buf.st_size / cfg.block_size) * cfg.block_size := by
          ring
        omega
      have hre : honestReads inode.buf.st_size cfg.block_size =
          List.replicate (inode.buf.st_size / cfg.block_size)
              (ReadResult.bytes cfg.block_size) ++
            [ReadResult.bytes (inode.buf.st_size % cfg.block_size)] := by
        rw [honestReads, if_pos hmod]
      have hceil := ceil_div_inexact hBpos hmod
      rw [hre, hceil,
        blockLoop_replicate cfg inode inode.buf.st_size none
          (inode.buf.st_size / cfg.block_size) s 0]
      have htail : blockLoop cfg inode inode.buf.st_size none 1
          (s + inode.buf.st_size / cfg.block_size)
          (0 + (inode.buf.st_size / cfg.block_size) * cfg.block_size)
          [ReadResult.bytes (inode.buf.st_size % cfg.block_size)] =
          AttemptOutcome.finished inode
            (s + inode.buf.st_size / cfg.block_size + 1)
            [put_file_buffer
              { sequence := s + inode.buf.st_size / cfg.block_size,
                size := inode.buf.st_size % cfg.block_size,
                file_size := (inode.buf.st_size : Int), error := 0,
                fragment := is_fragment cfg inode, noD := inode.noD }] := by
        simp only [blockLoop, tailStep, takeRead, Nat.zero_add]
        simp [finishTail, takeRead, hbytes, hS0, hmod, freshBuffer]
      rw [htail]
      constructor
      · rw [AttemptOutcome.prependList_isFinished]
        rfl
      · rw [AttemptOutcome.prependList_emits]
        simp [AttemptOutcome.emits]

/-- C5: for a regular file of stated size `S` whose single attempt reads the
file undisturbed (no errors, no size change), the block reader emits
exactly `max 1 ⌈S / B⌉` buffers and completes; in particular a zero-length
file yields exactly one buffer (`max 1 0 = 1`). -/
theorem C5_block_read_buffer_count (cfg : Config) (inode : InodeInfo) (s : Nat)
    (hB : cfg.block_size = 2 ^ cfg.block_log) (hread : inode.read = false) :
    ((reader_read_file cfg inode s
        [{ openOk := true,
           reads := honestReads inode.buf.st_size cfg.block_size,
           fstatRes := none }]).emits.length =
      max 1 ((inode.buf.st_size + cfg.block_size - 1) / cfg.block_size)) ∧
    (reader_read_file cfg inode s
        [{ openOk := true,
           reads := honestReads inode.buf.st_size cfg.block_size,
           fstatRes := none }]).ok = true := by
  have h := runAttempt_honest cfg { inode with read := true } s hB
  simp only [reader_read_file, hread, Bool.false_eq_true, if_false]
  rcases hA : runAttempt cfg { inode with read := true } s
      { openOk := true,
        reads := honestReads inode.buf.st_size cfg.block_size,
        fstatRes := none } with ⟨i, q, e⟩ | ⟨i, q, e⟩
  · rw [hA] at h
    simp only [AttemptOutcome.isFinished, AttemptOutcome.emits] at h
    simp [attemptLoop, hA, h.2]
  · rw [hA] at h
    simp only [AttemptOutcome.isFinished] at h
    exact absurd h.1 (by simp)

theorem C5_block_read_buffer_count_witness :
    ((reader_read_file cfgK inodeSmall 0
        [{ openOk := true,
           reads := honestReads inodeSmall.buf.st_size cfgK.block_size,
           fstatRes := none }]).emits.length =
      max 1 ((inodeSmall.buf.st_size + cfgK.block_size - 1) / cfgK.block_size)) ∧
    (reader_read_file cfgK inodeSmall 0
        [{ openOk := true,
           reads := honestReads inodeSmall.buf.st_size cfgK.block_size,
           fstatRes := none }]).ok = true :=
  C5_block_read_buffer_count cfgK inodeSmall 0 (by decide) (by decide)

/-- C6: the code after the block loop accepts only an accumulated byte
count equal to the size being read - any mismatch goes to the restat path;
exactly when that size is a nonzero exact multiple of the block size a
1-byte probe read is consumed, and a probe returning data sends the read to
the restat path (a probe read error is a hard failure); only an
end-of-stream probe (and a matching byte count) lets the attempt finish
successfully with the classified tail buffer. -/
theorem C6_after_loop_verification (cfg : Config) (inode : InodeInfo)
    (read_size : Nat) (fstatRes : Option Stat) (fb : FileBuffer)
    (s bytes : Nat) (reads : List ReadResult) :
    (read_size ≠ bytes →
      finishTail cfg inode read_size fstatRes fb s bytes reads =
        doRestat inode read_size fstatRes fb s) ∧
    (read_size = bytes → read_size ≠ 0 → read_size % cfg.block_size = 0 →
      (∀ rest, reads = ReadResult.err :: rest →
        finishTail cfg inode read_size fstatRes fb s bytes reads =
          fileReadErr inode fb s) ∧
      (∀ n rest, reads = ReadResult.bytes n :: rest → n ≠ 0 →
        finishTail cfg inode read_size fstatRes fb s bytes reads =
          doRestat inode read_size fstatRes fb s) ∧
      (∀ n rest, reads = ReadResult.bytes n :: rest → n = 0 →
        finishTail cfg inode read_size fstatRes fb s bytes reads =
          AttemptOutcome.finished inode s
            [put_file_buffer { fb with fragment := is_fragment cfg inode }])) ∧
    (read_size = bytes → ¬(read_size ≠ 0 ∧ read_size % cfg.block_size = 0) →
      finishTail cfg inode read_size fstatRes fb s bytes reads =
        AttemptOutcome.finished inode s
          [put_file_buffer { fb with fragment := is_fragment cfg inode }]) := by
  refine ⟨?_, ?_, ?_⟩
  · intro h
    simp [finishTail, h]
  · intro h h0 hm
    subst h
    refine ⟨?_, ?_, ?_⟩
    · intro rest hre
      simp [finishTail, h0, hm, hre, takeRead]
    · intro n rest hre hn
      simp [finishTail, h0, hm, hre, takeRead, hn]
    · intro n rest hre hn
      simp [finishTail, h0, hm, hre, takeRead, hn]
  · intro h hc
    subst h
    simp [finishTail, hc]

theorem C6_after_loop_verification_witness :
    finishTail cfgK inodeSmall 5 none freshBuffer 3 7 [] =
      doRestat inodeSmall 5 none freshBuffer 3 :=
  (C6_after_loop_verification cfgK inodeSmall 5 none freshBuffer 3 7 []).1
    (by decide)

/-- C7: at the restat label, a fresh stat reporting the very size the
attempt just tried means a hard failure - the buffer is forwarded with
`error = 1` and no retry happens; only a differing fresh size produces a
retry: the inode's stat is replaced by the fresh one, the current buffer is
forwarded marked content-changed (`error = 2`), and the attempt loop then
re-runs the whole read (from byte 0) on the refreshed inode. -/
theorem C7_restat_retry_or_fail (inode : InodeInfo) (read_size : Nat)
    (fb : FileBuffer) (s : Nat) (buf2 : Stat) :
    (buf2.st_size = read_size →
      doRestat inode read_size (some buf2) fb s =
        AttemptOutcome.finished inode s
          [put_file_buffer { fb with error := 1 }]) ∧
    (buf2.st_size ≠ read_size →
      doRestat inode read_size (some buf2) fb s =
        AttemptOutcome.retry { inode with buf := buf2 } s
          [put_file_buffer { fb with error := 2 }]) ∧
    (∀ (cfg : Config) (att : FileAttempt) (rest : List FileAttempt)
        (i1 : InodeInfo) (s1 : Nat) (e1 : List Emission),
      runAttempt cfg inode s att = AttemptOutcome.retry i1 s1 e1 →
      attemptLoop cfg inode s (att :: rest) =
        { inode := (attemptLoop cfg i1 s1 rest).inode,
          seq := (attemptLoop cfg i1 s1 rest).seq,
          emits := e1 ++ (attemptLoop cfg i1 s1 rest).emits,
          ok := (attemptLoop cfg i1 s1 rest).ok }) := by
  refine ⟨?_, ?_, ?_⟩
  · intro h
    simp [doRestat, fileReadErr, h]
  · intro h
    have h2 : read_size ≠ buf2.st_size := fun hh => h hh.symm
    simp [doRestat, h2]
  · intro cfg att rest i1 s1 e1 hA
    simp [attemptLoop, hA]

theorem C7_restat_retry_or_fail_witness :
    doRestat inodeSmall 5 (some { st_size := 5, st_mode := FileMode.reg })
        freshBuffer 3 =
      AttemptOutcome.finished inodeSmall 3
        [put_file_buffer { freshBuffer with error := 1 }] :=
  (C7_restat_retry_or_fail inodeSmall 5 freshBuffer 3
    { st_size := 5, st_mode := FileMode.reg }).1 (by decide)

/-- An entry whose inode is neither a pseudo process file nor (by stat
mode) a regular file or directory - a symlink, device node, fifo or
socket - used to exercise the walker's skip path. -/
def entOther : DirEnt :=
  DirEnt.mk
    { buf := { st_size := 7, st_mode := FileMode.other }, read := false,
      root_entry := false, pseudoProcess := false, noD := false, noF := false,
      no_fragments := false, always_use_fragments := false }
    { spawnOk := true, reads := [], wait := some 0 } [] DirList.nil

/-- C9: scanning a directory entry that is not a pseudo process file and
whose stat mode is neither regular file nor directory produces no buffers
and changes nothing: the entry is returned as-is, the sequence counter is
untouched, and the scan simply continues with the remaining entries. -/
theorem C9_walker_skips_special_files (cfg : Config) (e : DirEnt)
    (es : DirList) (s : Nat) (h1 : e.inode.pseudoProcess = false)
    (h2 : e.inode.buf.st_mode = FileMode.other) :
    scanList cfg (DirList.cons e es) s =
      { dir := DirList.cons e (scanList cfg es s).dir,
        seq := (scanList cfg es s).seq,
        emits := (scanList cfg es s).emits,
        ok := (scanList cfg es s).ok } := by
  obtain ⟨inode, src, attempts, children⟩ := e
  simp only [DirEnt.inode] at h1 h2
  rw [scanList]
  by_cases hr : inode.root_entry
  · simp [scanEnt, hr]
  · simp [scanEnt, hr, h1, h2]

theorem C9_walker_skips_special_files_witness :
    scanList cfgK (DirList.cons entOther DirList.nil) 0 =
      { dir := DirList.cons entOther (scanList cfgK DirList.nil 0).dir,
        seq := (scanList cfgK DirList.nil 0).seq,
        emits := (scanList cfgK DirList.nil 0).emits,
        ok := (scanList cfgK DirList.nil 0).ok } :=
  C9_walker_skips_special_files cfgK entOther DirList.nil 0 rfl rfl

/-! ### The process reader's error and read-flag behaviour -/

theorem procLoop_read_flag (cfg : Config) (wait : Option Nat) :
    ∀ (reads : List ReadResult) (inode : InodeInfo) (bytes : Nat)
      (prev : Option FileBuffer) (s : Nat),
    (procLoop cfg inode bytes prev s wait reads).inode.read = inode.read := by
  intro reads
  induction reads with
  | nil =>
    intro inode bytes prev s
    by_cases hw : wait = some 0 <;> cases prev <;>
      simp [procLoop, procFinish, procReadErr, hw]
  | cons r rest ih =>
    intro inode bytes prev s
    cases r with
    | err => cases prev <;> simp [procLoop, procReadErr]
    | bytes n =>
      by_cases hn : n = 0
      · subst hn
        by_cases hw : wait = some 0 <;> cases prev <;>
          simp [procLoop, procFinish, procReadErr, hw]
      · cases prev <;> simp [procLoop, hn, ih]

theorem reader_read_process_read_flag (cfg : Config) (inode : InodeInfo)
    (s : Nat) (src : PseudoSrc) :
    (reader_read_process cfg inode s src).inode.read = inode.read := by
  unfold reader_read_process
  cases hsp : src.spawnOk with
  | false => simp
  | true => simpa using procLoop_read_flag cfg src.wait src.reads inode 0 none s

theorem procLoop_error_marking (cfg : Config) (wait : Option Nat)
    (hw : wait ≠ some 0) :
    ∀ (reads : List ReadResult) (inode : InodeInfo) (bytes : Nat)
      (prev : Option FileBuffer) (s : Nat),
      ReadResult.err ∉ reads →
      (∀ pb, prev = some pb → pb.error = 0) →
      (procLoop cfg inode bytes prev s wait reads).emits.map
          (fun e => e.2.error) =
        List.replicate
            ((procLoop cfg inode bytes prev s wait reads).emits.length - 1) 0 ++
          [1] := by
  intro reads
  induction reads with
  | nil =>
    intro inode bytes prev s _ hprev
    cases prev with
    | none => simp [procLoop, procFinish, procReadErr, hw, put_file_buffer_error]
    | some pb => simp [procLoop, procFinish, procReadErr, hw, put_file_buffer_error]
  | cons r rest ih =>
    intro inode bytes prev s herr hprev
    cases r with
    | err => exact absurd (List.mem_cons_self _ _) herr
    | bytes n =>
      have herr' : ReadResult.err ∉ rest := fun hh =>
        herr (List.mem_cons_of_mem _ hh)
      by_cases hn : n = 0
      · subst hn
        cases prev with
        | none =>
          simp [procLoop, procFinish, procReadErr, hw, put_file_buffer_error]
        | some pb =>
          simp [procLoop, procFinish, procReadErr, hw, put_file_buffer_error]
      · have hrec := ih inode (bytes + n)
          (some { sequence := s, size := n, file_size := -1, error := 0,
                  fragment := false, noD := inode.noD })
          (s + 1) herr' (by intro pb h; cases h; rfl)
        cases prev with
        | none => simpa [procLoop, hn, freshBuffer] using hrec
        | some pb =>
          have hpb := hprev pb rfl
          set r := procLoop cfg inode (bytes + n)
            (some { sequence := s, size := n, file_size := -1, error := 0,
                    fragment := false, noD := inode.noD })
            (s + 1) wait rest with hrdef
          have hge : 1 ≤ r.emits.length := by
            have hl := congrArg List.length hrec
            simp only [List.length_map, List.length_append,
              List.length_replicate, List.length_cons, List.length_nil] at hl
            omega
          have heq : procLoop cfg inode bytes (some pb) s wait
              (ReadResult.bytes n :: rest) =
              { r with emits := put_file_buffer pb :: r.emits } := by
            rw [hrdef]
            simp [procLoop, hn, freshBuffer]
          rw [heq]
          simp only [List.map_cons, List.length_cons, put_file_buffer_error,
            hpb, hrec]
          rw [show r.emits.length + 1 - 1 = (r.emits.length - 1) + 1 from by omega,
            List.replicate_succ]
          simp

/-- C8 counterexample: the claim also asserts that the InodeInfo read flag
is set after a pseudo file's generator fails, but `reader_read_process`
never touches the `read` flag (only `reader_read_file` checks and sets it):
here a generator that exits with status 1 produces the single hard-failure
buffer, yet the inode's read flag is still false. -/
theorem C8_counterexample :
    ((reader_read_process cfgK inodeSmall 0
        { spawnOk := true, reads := [], wait := some 1 }).emits.map
      (fun e => e.2.error) = [1]) ∧
    inodeSmall.read = false ∧
    (reader_read_process cfgK inodeSmall 0
        { spawnOk := true, reads := [], wait := some 1 }).inode.read = false := by
  decide

/-- C8 (amended): for a pseudo file whose generator is spawned successfully
and whose output stream is read without error, if the wait fails or the
process exits with nonzero status then exactly one buffer - the last one
forwarded - is marked `error = 1` (hard failure), every earlier buffer for
the file being error-free; the process reader leaves the InodeInfo `read`
flag unchanged (the read-once guard via that flag lives in
`reader_read_file` and applies only to regular files). -/
theorem C8_failed_generator (cfg : Config) (inode : InodeInfo) (s : Nat)
    (src : PseudoSrc) (h1 : src.spawnOk = true)
    (h2 : ReadResult.err ∉ src.reads) (h3 : src.wait ≠ some 0) :
    ((reader_read_process cfg inode s src).emits.map (fun e => e.2.error) =
      List.replicate
          ((reader_read_process cfg inode s src).emits.length - 1) 0 ++
        [1]) ∧
    (reader_read_process cfg inode s src).inode.read = inode.read := by
  constructor
  · unfold reader_read_process
    rw [h1]
    simpa using procLoop_error_marking cfg src.wait h3 src.reads inode 0 none s
      h2 (by intro pb h; cases h)
  · exact reader_read_process_read_flag cfg inode s src

theorem C8_failed_generator_witness :
    ((reader_read_process cfgK inodeSmall 0
        { spawnOk := true, reads := [ReadResult.bytes 10], wait := none }).emits.map
      (fun e => e.2.error) =
      List.replicate
          ((reader_read_process cfgK inodeSmall 0
            { spawnOk := true, reads := [ReadResult.bytes 10], wait := none }).emits.length - 1)
          0 ++ [1]) ∧
    (reader_read_process cfgK inodeSmall 0
        { spawnOk := true, reads := [ReadResult.bytes 10], wait := none }).inode.read =
      inodeSmall.read :=
  C8_failed_generator cfgK inodeSmall 0
    { spawnOk := true, reads := [ReadResult.bytes 10], wait := none }
    (by decide) (by decide) (by decide)

/-! ### Which buffers carry a concrete file size -/

theorem procLoop_file_size_marking (cfg : Config) :
    ∀ (reads : List ReadResult) (inode : InodeInfo) (bytes : Nat)
      (prev : Option FileBuffer) (s : Nat),
      ReadResult.err ∉ reads →
      (∀ pb, prev = some pb → pb.file_size = -1) →
      (procLoop cfg inode bytes prev s (some 0) reads).emits.map
          (fun e => e.2.file_size) =
        List.replicate
            ((procLoop cfg inode bytes prev s (some 0) reads).emits.length - 1)
            (-1) ++
          [((procLoop cfg inode bytes prev s (some 0) reads).inode.buf.st_size : Int)] := by
  intro reads
  induction reads with
  | nil =>
    intro inode bytes prev s _ hprev
    cases prev with
    | none => simp [procLoop, procFinish, put_file_buffer_file_size]
    | some pb => simp [procLoop, procFinish, put_file_buffer_file_size]
  | cons r rest ih =>
    intro inode bytes prev s herr hprev
    cases r with
    | err => exact absurd (List.mem_cons_self _ _) herr
    | bytes n =>
      have herr' : ReadResult.err ∉ rest := fun hh =>
        herr (List.mem_cons_of_mem _ hh)
      by_cases hn : n = 0
      · subst hn
        cases prev with
        | none => simp [procLoop, procFinish, put_file_buffer_file_size]
        | some pb => simp [procLoop, procFinish, put_file_buffer_file_size]
      · have hrec := ih inode (bytes + n)
          (some { sequence := s, size := n, file_size := -1, error := 0,
                  fragment := false, noD := inode.noD })
          (s + 1) herr' (by intro pb h; cases h; rfl)
        cases prev with
        | none => simpa [procLoop, hn, freshBuffer] using hrec
        | some pb =>
          have hpb := hprev pb rfl
          set r := procLoop cfg inode (bytes + n)
            (some { sequence := s, size := n, file_size := -1, error := 0,
                    fragment := false, noD := inode.noD })
            (s + 1) (some 0) rest with hrdef
          have hge : 1 ≤ r.emits.length := by
            have hl := congrArg List.length hrec
            simp only [List.length_map, List.length_append,
              List.length_replicate, List.length_cons, List.length_nil] at hl
            omega
          have heq : procLoop cfg inode bytes (some pb) s (some 0)
              (ReadResult.bytes n :: rest) =
              { r with emits := put_file_buffer pb :: r.emits } := by
            rw [hrdef]
            simp [procLoop, hn, freshBuffer]
          rw [heq]
          simp only [List.map_cons, List.length_cons, put_file_buffer_file_size,
            hpb, hrec]
          rw [show r.emits.length + 1 - 1 = (r.emits.length - 1) + 1 from by omega,
            List.replicate_succ]
          simp

theorem fileReadErr_file_size (inode : InodeInfo) (fb : FileBuffer) (s : Nat) :
    ∀ e ∈ (fileReadErr inode fb s).emits, e.2.file_size = fb.file_size := by
  simp [fileReadErr, AttemptOutcome.emits, put_file_buffer_file_size]

theorem doRestat_file_size (inode : InodeInfo) (read_size : Nat)
    (fstatRes : Option Stat) (fb : FileBuffer) (s : Nat) :
    ∀ e ∈ (doRestat inode read_size fstatRes fb s).emits,
      e.2.file_size = fb.file_size := by
  cases fstatRes with
  | none => simpa [doRestat] using fileReadErr_file_size inode fb s
  | some buf2 =>
    by_cases h : read_size ≠ buf2.st_size
    · simp [doRestat, h, AttemptOutcome.emits, put_file_buffer_file_size]
    · simpa [doRestat, h] using fileReadErr_file_size inode fb s

theorem finishTail_file_size (cfg : Config) (inode : InodeInfo)
    (read_size : Nat) (fstatRes : Option Stat) (fb : FileBuffer)
    (s bytes : Nat) (reads : List ReadResult) :
    ∀ e ∈ (finishTail cfg inode read_size fstatRes fb s bytes reads).emits,
      e.2.file_size = fb.file_size := by
  by_cases h1 : read_size ≠ bytes
  · simpa [finishTail, h1] using doRestat_file_size inode read_size fstatRes fb s
  · by_cases h2 : read_size ≠ 0 ∧ read_size % cfg.block_size = 0
    · rcases hr : takeRead reads with ⟨r, rest⟩
      cases r with
      | err =>
        simpa [finishTail, h1, h2, hr] using fileReadErr_file_size inode fb s
      | bytes n =>
        by_cases hn : n ≠ 0
        · simpa [finishTail, h1, h2, hr, hn] using
            doRestat_file_size inode read_size fstatRes fb s
        · simp [finishTail, h1, h2, hr, hn, AttemptOutcome.emits,
            put_file_buffer_file_size]
    · simp [finishTail, h1, h2, AttemptOutcome.emits, put_file_buffer_file_size]

theorem tailStep_file_size (cfg : Config) (inode : InodeInfo)
    (read_size : Nat) (fstatRes : Option Stat) (s bytes : Nat)
    (reads : List ReadResult) :
    ∀ e ∈ (tailStep cfg inode read_size fstatRes s bytes reads).emits,
      e.2.file_size = (read_size : Int) := by
  rcases hr : takeRead reads with ⟨r, rest⟩
  cases r with
  | err =>
    intro e he
    rw [tailStep] at he
    rw [hr] at he
    simpa using fileReadErr_file_size inode _ (s + 1) e (by simpa using he)
  | bytes n =>
    intro e he
    rw [tailStep] at he
    rw [hr] at he
    simpa using finishTail_file_size cfg inode read_size fstatRes
      { freshBuffer with
        file_size := (read_size : Int), sequence := s, noD := inode.noD,
        error := 0, size := n } (s + 1) (bytes + n) rest e (by simpa using he)

theorem blockLoop_file_size (cfg : Config) (inode : InodeInfo)
    (read_size : Nat) (fstatRes : Option Stat) :
    ∀ (b s bytes : Nat) (reads : List ReadResult),
    ∀ e ∈ (blockLoop cfg inode read_size fstatRes b s bytes reads).emits,
      e.2.file_size = (read_size : Int) := by
  intro b
  induction b using Nat.strong_induction_on with
  | _ b ih =>
    match b with
    | 0 =>
      intro s bytes reads
      simpa only [blockLoop] using
        tailStep_file_size cfg inode read_size fstatRes s bytes reads
    | 1 =>
      intro s bytes reads
      simpa only [blockLoop] using
        tailStep_file_size cfg inode read_size fstatRes s bytes reads
    | b + 2 =>
      intro s bytes reads
      rcases hr : takeRead reads with ⟨r, rest⟩
      cases r with
      | err =>
        have heq : blockLoop cfg inode read_size fstatRes (b + 2) s bytes reads =
            fileReadErr inode
              { freshBuffer with
                file_size := (read_size : Int), sequence := s, noD := inode.noD,
                error := 0 } (s + 1) := by
          simp [blockLoop, hr]
        rw [heq]
        simpa using fileReadErr_file_size inode _ (s + 1)
      | bytes n =>
        by_cases hn : n < cfg.block_size
        · have heq : blockLoop cfg inode read_size fstatRes (b + 2) s bytes reads =
              doRestat inode read_size fstatRes
                { freshBuffer with
                  file_size := (read_size : Int), sequence := s, noD := inode.noD,
                  error := 0, size := n } (s + 1) := by
            simp [blockLoop, hr, hn]
          rw [heq]
          simpa using doRestat_file_size inode read_size fstatRes _ (s + 1)
        · have heq : blockLoop cfg inode read_size fstatRes (b + 2) s bytes reads =
              AttemptOutcome.prependList
                [put_file_buffer
                  { freshBuffer with
                    file_size := (read_size : Int), sequence := s, noD := inode.noD,
                    error := 0, size := n, fragment := false }]
                (blockLoop cfg inode read_size fstatRes (b + 1) (s + 1)
                  (bytes + n) rest) := by
            simp [blockLoop, hr, hn]
          rw [heq, AttemptOutcome.prependList_emits]
          intro e he
          rcases List.mem_append.mp he with hm | hm
          · simp only [List.mem_singleton] at hm
            subst hm
            simp [put_file_buffer_file_size, freshBuffer]
          · exact ih (b + 1) (by omega) (s + 1) (bytes + n) rest e hm

theorem reader_read_file_file_size (cfg : Config) (inode : InodeInfo) (s : Nat)
    (att : FileAttempt) (hopen : att.openOk = true) :
    ∀ e ∈ (reader_read_file cfg inode s [att]).emits,
      e.2.file_size = (inode.buf.st_size : Int) := by
  unfold reader_read_file
  split_ifs with h
  · simp
  · have hru : runAttempt cfg { inode with read := true } s att =
        blockLoop cfg { inode with read := true } inode.buf.st_size att.fstatRes
          ((inode.buf.st_size + cfg.block_size - 1) >>> cfg.block_log) s 0
          att.reads := by
      simp [runAttempt, hopen]
    have hall : ∀ e ∈ (runAttempt cfg { inode with read := true } s att).emits,
        e.2.file_size = (inode.buf.st_size : Int) := by
      rw [hru]
      exact blockLoop_file_size cfg _ _ _ _ s 0 att.reads
    rcases hA : runAttempt cfg { inode with read := true } s att with
        ⟨i, q, e⟩ | ⟨i, q, e⟩ <;>
      rw [hA] at hall <;>
      simp only [AttemptOutcome.emits] at hall <;>
      intro x hx <;>
      simp only [attemptLoop, hA] at hx
    · exact hall x hx
    · simp only [attemptLoop, List.append_nil] at hx
      exact hall x hx

/-- A 2048-byte regular file (two full 1024-byte blocks) with default
flags, not yet read. -/
def inode2048 : InodeInfo :=
  { buf := { st_size := 2048, st_mode := FileMode.reg }, read := false,
    root_entry := false, pseudoProcess := false, noD := false, noF := false,
    no_fragments := false, always_use_fragments := false }

/-- C3 counterexample: the claim says every non-terminal buffer carries
`file_size = unknown`, but the block reader stamps the stated file size on
every buffer it creates: an undisturbed read of a 2048-byte file with a
1024-byte block size emits two buffers for the one file, and both carry the
concrete `file_size = 2048` - in particular the non-terminal first buffer
does not carry the unknown marker (-1). -/
theorem C3_counterexample :
    ((reader_read_file cfgK inode2048 0
        [{ openOk := true, reads := honestReads 2048 1024, fstatRes := none }]).emits.map
      (fun e => e.2.file_size) = [2048, 2048]) ∧
    (reader_read_file cfgK inode2048 0
        [{ openOk := true, reads := honestReads 2048 1024,
           fstatRes := none }]).ok = true := by
  decide

/-- C3 (amended): in the process reader every non-terminal buffer carries
`file_size = -1` (unknown) and exactly the last forwarded buffer carries
the file's concrete total size (the byte count also recorded in the
inode); in the block reader, by contrast, every buffer of an attempt -
terminal or not - carries `file_size` equal to the file's stated size for
that attempt. -/
theorem C3_file_size_marking (cfg : Config) (inode1 inode2 : InodeInfo)
    (s1 s2 : Nat) (src : PseudoSrc) (att : FileAttempt)
    (h1 : src.spawnOk = true) (h2 : ReadResult.err ∉ src.reads)
    (h3 : src.wait = some 0) (h4 : att.openOk = true) :
    ((reader_read_process cfg inode1 s1 src).emits.map
        (fun e => e.2.file_size) =
      List.replicate
          ((reader_read_process cfg inode1 s1 src).emits.length - 1) (-1) ++
        [((reader_read_process cfg inode1 s1 src).inode.buf.st_size : Int)]) ∧
    (∀ e ∈ (reader_read_file cfg inode2 s2 [att]).emits,
      e.2.file_size = (inode2.buf.st_size : Int)) := by
  constructor
  · unfold reader_read_process
    rw [h1, h3]
    simpa using procLoop_file_size_marking cfg src.reads inode1 0 none s1 h2
      (by intro pb h; cases h)
  · exact reader_read_file_file_size cfg inode2 s2 att h4

theorem C3_file_size_marking_witness :
    ((reader_read_process cfgK inodeSmall 0
        { spawnOk := true, reads := [ReadResult.bytes 10], wait := some 0 }).emits.map
        (fun e => e.2.file_size) =
      List.replicate
          ((reader_read_process cfgK inodeSmall 0
            { spawnOk := true, reads := [ReadResult.bytes 10],
              wait := some 0 }).emits.length - 1) (-1) ++
        [((reader_read_process cfgK inodeSmall 0
            { spawnOk := true, reads := [ReadResult.bytes 10],
              wait := some 0 }).inode.buf.st_size : Int)]) ∧
    (∀ e ∈ (reader_read_file cfgK inode2048 0
        [{ openOk := true, reads := honestReads 2048 1024,
           fstatRes := none }]).emits,
      e.2.file_size = (inode2048.buf.st_size : Int)) :=
  C3_file_size_marking cfgK inodeSmall inode2048 0 0
    { spawnOk := true, reads := [ReadResult.bytes 10], wait := some 0 }
    { openOk := true, reads := honestReads 2048 1024, fstatRes := none }
    (by decide) (by decide) (by decide) (by decide)

end SquashfsReader
